import Mathlib

/-!
Verification of the NLP text-classification pipeline described by the
repository's notebooks (`2-represent-text-as-tensors.ipynb`,
`3-embeddings.ipynb`): vocabulary building, text vectorization, batch
padding, bag-of-words, masked aggregation, masked recurrent scan,
embedding lookup and pre-trained-embedding matrix population.

The notebooks delegate most stages to framework layers
(`TextVectorization`, `Embedding`, `SimpleRNN`); those stages are
modelled here from the specification's contracts.  The two pieces of
in-repository logic — the `to_bow` function and the embedding-matrix
population loop — are embedded directly from the notebook code.
Vectors are modelled over `ℚ` so that all equalities are exact.
-/

namespace NlpPipeline

/-- Error taxonomy of the specification: `ConfigError` (invalid
size/parameter at setup), `InternalError` (invariant violation, e.g. id
out of embedding range), `NumericError` (non-finite loss/gradient). -/
inductive PipelineError where
  | configError
  | internalError
  | numericError
deriving DecidableEq, Repr

/-- The reserved padding token, id 0 (`TextVectorization` uses `""`). -/
def padToken : String := ""

/-- The reserved unknown token, id 1 (`TextVectorization` uses `"[UNK]"`). -/
def unkToken : String := "[UNK]"

/-- Modelled from the spec: the fixed tokenization rule of the
Vectorizer ("lowercase, split on non-alphanumeric runs"), implemented
by `TextVectorization`'s standardization in the notebooks. -/
def tokenize (text : String) : List String :=
  (((text.data.map Char.toLower).splitOnP (fun c => !c.isAlphanum)).filter
    (fun t => t ≠ [])).map (fun t => String.mk t)

/-- Modelled from the spec: token lookup of the Vectorizer — a known
token maps to its vocabulary index, an unknown token to the reserved
unknown id 1. -/
def tokenToId (vocab : List String) (t : String) : Nat :=
  if t ∈ vocab then vocab.indexOf t else 1

/-- Modelled from the spec: the Vectorizer — "given one string and a
vocabulary, returns an ordered sequence of ids, unknown tokens mapped
to the reserved unknown id"; `vectorizer(text)` in the notebooks. -/
def vectorize (vocab : List String) (text : String) : List Nat :=
  (tokenize text).map (tokenToId vocab)

/-- First occurrence of each token, in order of first appearance. -/
def dedupFirst : List String → List String
  | [] => []
  | t :: ts => t :: (dedupFirst ts).filter (fun u => u ≠ t)

/-- Insert a token into a list ranked by descending frequency, placing
it after every already-present token of frequency ≥ its own, so that
frequency ties keep first-seen order (stable). -/
def insertRanked (cnt : String → Nat) (t : String) : List String → List String
  | [] => [t]
  | u :: us => if cnt u < cnt t then t :: u :: us else u :: insertRanked cnt t us

/-- Stable sort by descending frequency: tokens are inserted in
first-seen order, each after all existing tokens of ≥ frequency. -/
def rankSort (cnt : String → Nat) (ts : List String) : List String :=
  ts.foldl (fun acc t => insertRanked cnt t acc) []

/-- Modelled from the spec: the Vocabulary Builder — "given a lazy
sequence of documents and a maximum vocabulary size, produces a
frequency-ranked, size-capped token→id mapping.  Ties in frequency
broken by first-seen order (stable).  Fails with ConfigError if maximum
size < 2"; `vectorizer.adapt` / `get_vocabulary` in the notebooks. -/
def buildVocab (docs : List String) (maxSize : Nat) :
    Except PipelineError (List String) :=
  if maxSize < 2 then .error .configError
  else
    let tokens := (docs.map tokenize).flatten
    let ranked := rankSort (fun t => tokens.count t) (dedupFirst tokens)
    .ok (padToken :: unkToken :: ranked.take (maxSize - 2))

/-- Width of a batch: length of its longest sequence. -/
def maxLen (seqs : List (List Nat)) : Nat :=
  seqs.foldr (fun s m => max s.length m) 0

/-- Right-pad one id sequence with the padding id 0 up to width `w`. -/
def padSeq (w : Nat) (s : List Nat) : List Nat :=
  s ++ List.replicate (w - s.length) 0

/-- Mask row for one sequence: `true` at real positions, `false` at
padded positions. -/
def maskSeq (w : Nat) (s : List Nat) : List Bool :=
  List.replicate s.length true ++ List.replicate (w - s.length) false

/-- Modelled from the spec: the Batch Assembler — "computes max_len =
length of the longest sequence in the set, right-pads all shorter
sequences with the padding id, and emits the paired id-grid and
mask-grid.  Fails with ConfigError on an empty batch"; the behaviour of
`vectorizer` applied to a list of strings in the notebooks. -/
def padBatch (seqs : List (List Nat)) :
    Except PipelineError (List (List Nat) × List (List Bool)) :=
  match seqs with
  | [] => .error .configError
  | _ :: _ =>
    .ok (seqs.map (padSeq (maxLen seqs)), seqs.map (maskSeq (maxLen seqs)))

/-- Componentwise sum of two rational vectors. -/
def vecAdd (v w : List ℚ) : List ℚ := List.zipWith (· + ·) v w

/-- Scale a rational vector by a constant. -/
def vecScale (c : ℚ) (v : List ℚ) : List ℚ := v.map (fun x => c * x)

/-- The non-padding ids of a sequence (mask applied to the id row). -/
def realTokens (ids : List Nat) : List Nat := ids.filter (fun i => i ≠ 0)

/-- Modelled from the spec: masked sum pooling — the sum of the
embeddings of the non-padded positions only. -/
def maskedSum (e : Nat → List ℚ) (d : Nat) (ids : List Nat) : List ℚ :=
  (realTokens ids).foldl (fun acc i => vecAdd acc (e i)) (List.replicate d 0)

/-- Modelled from the spec: masked mean pooling — "ignoring padded
positions, i.e., dividing by the count of real tokens, not sequence
length". -/
def maskedMean (e : Nat → List ℚ) (d : Nat) (ids : List Nat) : List ℚ :=
  vecScale (1 / ((realTokens ids).length : ℚ)) (maskedSum e d ids)

/-- Modelled from the spec: the masked recurrent scan — "carries a
hidden state vector across positions in sequence order, skipping
updates at padded positions (state simply passes through unchanged)";
`Embedding(..., mask_zero=True)` followed by `SimpleRNN` in the
notebook. -/
def rnnScanMasked (cell : List ℚ → List ℚ → List ℚ) (e : Nat → List ℚ) :
    List ℚ → List Nat → List ℚ
  | s, [] => s
  | s, i :: ids => rnnScanMasked cell e (if i = 0 then s else cell s (e i)) ids

/-- Modelled from the spec: the Embed stage — "looks up each id in the
embedding table; out-of-range ids fail with InternalError";
`keras.layers.Embedding` in the notebooks. -/
def embedLookup (table : List (List ℚ)) : List Nat →
    Except PipelineError (List (List ℚ))
  | [] => .ok []
  | i :: ids =>
    match table.get? i with
    | some v =>
      match embedLookup table ids with
      | .ok vs => .ok (v :: vs)
      | .error err => .error err
    | none => .error .internalError

/-- One-hot vector of length `n` for id `i` (`tf.one_hot(i, n)`): 1 at
index `i`, 0 elsewhere; all zeros when `i ≥ n`. -/
def oneHot (n i : Nat) : List Nat := (List.range n).map (fun j => if j = i then 1 else 0)

/-- Componentwise sum of two natural-number vectors
(`tf.reduce_sum(..., axis=0)` accumulation step). -/
def vecAddNat (v w : List Nat) : List Nat := List.zipWith (· + ·) v w

/-- `to_bow` from `2-represent-text-as-tensors.ipynb`:
`tf.reduce_sum(tf.one_hot(vectorizer(text), vocab_size), axis=0)` — each
id of the vectorized text becomes a one-hot row of length `vocabSize`
and the rows are summed. -/
def to_bow (vocab : List String) (vocabSize : Nat) (text : String) : List Nat :=
  ((vectorize vocab text).map (oneHot vocabSize)).foldl vecAddNat
    (List.replicate vocabSize 0)

/-- Result of the embedding-matrix population loop of
`3-embeddings.ipynb`: the weight matrix `W` and the `found` /
`not_found` counters. -/
structure EmbMatrix where
  W : List (List ℚ)
  found : Nat
  notFound : Nat
deriving DecidableEq, Repr

/-- The body of the population loop, iterating over `enumerate(vocab)`:
`try: W[i] = w2v.get_vector(w); found += 1 except: not_found += 1`.
A provider miss is caught and only counted; the source's alternative
`W[i] = np.random.normal(...)` in the miss branch is commented out, so
the row is left untouched. -/
def populateGo (w2v : String → Option (List ℚ)) :
    List (Nat × String) → EmbMatrix → EmbMatrix
  | [], st => st
  | (i, w) :: rest, st =>
    match w2v w with
    | some v => populateGo w2v rest { st with W := st.W.set i v, found := st.found + 1 }
    | none => populateGo w2v rest { st with notFound := st.notFound + 1 }

/-- The embedding-matrix population of `3-embeddings.ipynb`:
`W = np.zeros((vocab_size, embed_size))` followed by the loop
`for i, w in enumerate(vocab): ...`. -/
def populateMatrix (w2v : String → Option (List ℚ)) (vocabSize embedSize : Nat)
    (vocab : List String) : EmbMatrix :=
  populateGo w2v vocab.enum
    ⟨List.replicate vocabSize (List.replicate embedSize 0), 0, 0⟩

/-! ## Supporting lemmas -/

lemma realTokens_append_pad (ids : List Nat) (k : Nat) :
    realTokens (ids ++ List.replicate k 0) = realTokens ids := by
  simp [realTokens, List.filter_append]

lemma mem_insertRanked (cnt : String → Nat) (t b : String) (l : List String) :
    b ∈ insertRanked cnt t l ↔ b = t ∨ b ∈ l := by
  induction l with
  | nil => simp [insertRanked]
  | cons u us ih =>
    by_cases hc : cnt u < cnt t
    · simp only [insertRanked, if_pos hc, List.mem_cons]
    · simp only [insertRanked, if_neg hc, List.mem_cons, ih]
      tauto

lemma insertRanked_pairwise (cnt : String → Nat) (t : String) (l : List String)
    (h : List.Pairwise (fun a b => cnt b ≤ cnt a) l) :
    List.Pairwise (fun a b => cnt b ≤ cnt a) (insertRanked cnt t l) := by
  induction l with
  | nil => simp [insertRanked]
  | cons u us ih =>
    rcases List.pairwise_cons.mp h with ⟨hu, hus⟩
    by_cases hc : cnt u < cnt t
    · simp only [insertRanked, if_pos hc]
      refine List.pairwise_cons.mpr ⟨?_, h⟩
      intro b hb
      rcases List.mem_cons.mp hb with rfl | hb
      · omega
      · exact le_trans (hu b hb) (le_of_lt hc)
    · simp only [insertRanked, if_neg hc]
      refine List.pairwise_cons.mpr ⟨?_, ih hus⟩
      intro b hb
      rcases (mem_insertRanked cnt t b us).mp hb with rfl | hb
      · omega
      · exact hu b hb

lemma rankSort_pairwise_aux (cnt : String → Nat) (ts acc : List String)
    (h : List.Pairwise (fun a b => cnt b ≤ cnt a) acc) :
    List.Pairwise (fun a b => cnt b ≤ cnt a)
      (ts.foldl (fun acc t => insertRanked cnt t acc) acc) := by
  induction ts generalizing acc with
  | nil => exact h
  | cons t ts ih =>
    exact ih (insertRanked cnt t acc) (insertRanked_pairwise cnt t acc h)

lemma rankSort_pairwise (cnt : String → Nat) (ts : List String) :
    List.Pairwise (fun a b => cnt b ≤ cnt a) (rankSort cnt ts) :=
  rankSort_pairwise_aux cnt ts [] List.Pairwise.nil

lemma maxLen_ge (seqs : List (List Nat)) : ∀ s ∈ seqs, s.length ≤ maxLen seqs := by
  induction seqs with
  | nil => simp
  | cons t ts ih =>
    intro s hs
    rcases List.mem_cons.mp hs with rfl | hs
    · simp [maxLen]
    · exact le_trans (ih s hs) (by simp [maxLen])

lemma maxLen_attained (seqs : List (List Nat)) (h : seqs ≠ []) :
    ∃ s ∈ seqs, s.length = maxLen seqs := by
  induction seqs with
  | nil => exact absurd rfl h
  | cons t ts ih =>
    rcases List.eq_nil_or_concat ts with rfl | _
    · exact ⟨t, List.mem_cons_self t [], by simp [maxLen]⟩
    · by_cases hc : maxLen ts ≤ t.length
      · exact ⟨t, List.mem_cons_self t ts, by simp [maxLen] at hc ⊢; omega⟩
      · have hts : ts ≠ [] := by
          intro hnil
          rw [hnil] at hc
          simp [maxLen] at hc
        obtain ⟨s, hs, hlen⟩ := ih hts
        exact ⟨s, List.mem_cons_of_mem t hs,
          by simp [maxLen] at hc hlen ⊢; omega⟩

lemma tokenToId_lt (vocab : List String) (t : String) (h : 2 ≤ vocab.length) :
    tokenToId vocab t < vocab.length := by
  unfold tokenToId
  by_cases hm : t ∈ vocab
  · simpa [hm] using List.indexOf_lt_length.mpr hm
  · simp [hm]
    omega

lemma vectorize_id_lt (vocab : List String) (text : String) (h : 2 ≤ vocab.length) :
    ∀ i ∈ vectorize vocab text, i < vocab.length := by
  intro i hi
  simp only [vectorize, List.mem_map] at hi
  obtain ⟨t, _, rfl⟩ := hi
  exact tokenToId_lt vocab t h

lemma embedLookup_ok (table : List (List ℚ)) (ids : List Nat)
    (h : ∀ i ∈ ids, i < table.length) :
    ∃ vs, embedLookup table ids = .ok vs := by
  induction ids with
  | nil => exact ⟨[], rfl⟩
  | cons i ids ih =>
    have hi : i < table.length := h i (List.mem_cons_self _ _)
    obtain ⟨v, hv⟩ : ∃ v, table.get? i = some v := by
      rw [List.get?_eq_getElem?]
      exact ⟨_, List.getElem?_eq_getElem hi⟩
    obtain ⟨vs, hvs⟩ := ih (fun j hj => h j (List.mem_cons_of_mem _ hj))
    exact ⟨_, by rw [embedLookup, hv, hvs]⟩

lemma populateGo_notFound (w2v : String → Option (List ℚ))
    (l : List (Nat × String)) (st : EmbMatrix) :
    (populateGo w2v l st).notFound =
      st.notFound + (l.filter (fun p => (w2v p.2).isNone)).length := by
  induction l generalizing st with
  | nil => simp [populateGo]
  | cons p rest ih =>
    obtain ⟨i, w⟩ := p
    cases hw : w2v w with
    | some v => simp [populateGo, hw, ih]
    | none =>
      simp [populateGo, hw, ih]
      omega

lemma populateGo_W_of_miss (w2v : String → Option (List ℚ))
    (l : List (Nat × String)) (st : EmbMatrix) (i : Nat)
    (h : ∀ w, (i, w) ∈ l → w2v w = none) :
    (populateGo w2v l st).W[i]? = st.W[i]? := by
  induction l generalizing st with
  | nil => rfl
  | cons p rest ih =>
    obtain ⟨j, w⟩ := p
    cases hw : w2v w with
    | some v =>
      have hji : i ≠ j := by
        intro hij
        subst hij
        exact absurd (h w (List.mem_cons_self _ _)) (by simp [hw])
      rw [populateGo, hw]
      rw [ih _ (fun u hu => h u (List.mem_cons_of_mem _ hu))]
      simp [List.getElem?_set_ne (Ne.symm hji)]
    | none =>
      rw [populateGo, hw]
      exact ih _ (fun u hu => h u (List.mem_cons_of_mem _ hu))

lemma length_filter_enumFrom (p : String → Bool) (l : List String) (n : Nat) :
    ((List.enumFrom n l).filter (fun q => p q.2)).length = (l.filter p).length := by
  induction l generalizing n with
  | nil => rfl
  | cons x l ih =>
    by_cases hx : p x <;> simp [List.enumFrom, List.filter, hx, ih]

lemma vecAddNat_map_range (n : Nat) (f g : Nat → Nat) :
    vecAddNat ((List.range n).map f) ((List.range n).map g)
      = (List.range n).map (fun v => f v + g v) := by
  simp [vecAddNat, List.zipWith_map, List.zipWith_same]

lemma foldl_oneHot (n : Nat) (ids : List Nat) (f : Nat → Nat) :
    (ids.map (oneHot n)).foldl vecAddNat ((List.range n).map f)
      = (List.range n).map (fun v => f v + ids.count v) := by
  induction ids generalizing f with
  | nil => simp
  | cons x ids ih =>
    simp only [List.map_cons, List.foldl_cons]
    rw [show oneHot n x = (List.range n).map (fun j => if j = x then 1 else 0) from rfl]
    rw [vecAddNat_map_range, ih]
    apply List.map_congr_left
    intro v _
    rw [List.count_cons]
    by_cases hvx : v = x
    · subst hvx
      simp
      omega
    · have hbeq : (x == v) = false := by
        simp
        exact Ne.symm hvx
      simp [hvx, hbeq]

lemma to_bow_eq_counts (vocab : List String) (n : Nat) (text : String) :
    to_bow vocab n text
      = (List.range n).map (fun v => (vectorize vocab text).count v) := by
  rw [to_bow, show List.replicate n (0 : Nat) = (List.range n).map (fun _ => 0) by
    simp [List.map_const]]
  rw [foldl_oneHot]
  simp

lemma sum_map_indicator (l : List Nat) (x : Nat) :
    (l.map (fun v => if x = v then 1 else 0)).sum = l.count x := by
  induction l with
  | nil => rfl
  | cons y l ih =>
    rw [List.map_cons, List.sum_cons, List.count_cons, ih]
    by_cases hxy : x = y
    · subst hxy
      simp
      omega
    · have hbeq : (y == x) = false := by
        simp
        exact Ne.symm hxy
      simp [hxy, hbeq]

lemma sum_range_counts (n : Nat) (ids : List Nat) (h : ∀ i ∈ ids, i < n) :
    ((List.range n).map (fun v => ids.count v)).sum = ids.length := by
  induction ids with
  | nil => simp
  | cons x ids ih =>
    have hx : x < n := h x (List.mem_cons_self _ _)
    have hcnt : ∀ v, List.count v (x :: ids) =
        List.count v ids + (if x = v then 1 else 0) := by
      intro v
      rw [List.count_cons]
      by_cases hvx : x = v
      · subst hvx
        simp
      · have hbeq : (x == v) = false := by
          simp [hvx]
        simp [hvx, hbeq]
    calc ((List.range n).map (fun v => (x :: ids).count v)).sum
        = ((List.range n).map
            (fun v => ids.count v + (if x = v then 1 else 0))).sum := by
          apply congrArg
          apply List.map_congr_left
          intro v _
          exact hcnt v
      _ = ((List.range n).map (fun v => ids.count v)).sum
            + ((List.range n).map (fun v => if x = v then 1 else 0)).sum := by
          rw [List.sum_map_add]
      _ = ids.length + List.count x (List.range n) := by
          rw [ih (fun j hj => h j (List.mem_cons_of_mem _ hj)), sum_map_indicator]
      _ = ids.length + 1 := by
          rw [List.count_eq_one_of_mem (List.nodup_range n) (List.mem_range.mpr hx)]
      _ = (x :: ids).length := by
          simp

/-! ## Claim theorems -/

/-- C1: the masked mean/sum aggregation over a token sequence (summing
only non-padded positions and dividing by the count of real tokens) is
invariant to appending any amount of trailing padding ids: padding a
sequence to its own length (`k = 0`) or to any greater width yields the
identical aggregated vector (exactly, over `ℚ`). -/
theorem c1_masked_aggregation_pad_invariant (e : Nat → List ℚ) (d : Nat)
    (ids : List Nat) (k : Nat) :
    maskedSum e d (ids ++ List.replicate k 0) = maskedSum e d ids ∧
    maskedMean e d (ids ++ List.replicate k 0) = maskedMean e d ids := by
  constructor
  · simp [maskedSum, realTokens_append_pad]
  · simp [maskedMean, maskedSum, realTokens_append_pad]

/-- C2: the masked recurrent scan carries its hidden state through
every padded position unchanged (removing a padding id anywhere in the
sequence does not change the result), so the final carried state of any
sequence is the same regardless of how much padding follows the real
tokens. -/
theorem c2_masked_rnn_skips_padding (cell : List ℚ → List ℚ → List ℚ)
    (e : Nat → List ℚ) :
    (∀ s pre post, rnnScanMasked cell e s (pre ++ 0 :: post) =
      rnnScanMasked cell e s (pre ++ post)) ∧
    (∀ s ids k, rnnScanMasked cell e s (ids ++ List.replicate k 0) =
      rnnScanMasked cell e s ids) := by
  have hpad : ∀ s k, rnnScanMasked cell e s (List.replicate k 0) = s := by
    intro s k
    induction k generalizing s with
    | zero => rfl
    | succ k ih => simpa [List.replicate_succ, rnnScanMasked] using ih s
  constructor
  · intro s pre post
    induction pre generalizing s with
    | nil => simp [rnnScanMasked]
    | cons i pre ih => simp [rnnScanMasked, ih]
  · intro s ids k
    induction ids generalizing s with
    | nil => simpa [rnnScanMasked] using hpad s k
    | cons i ids ih => simp [rnnScanMasked, ih]

/-- C3: for every corpus and every configured maximum vocabulary size
(≥ 2, else the builder fails with `ConfigError`), the produced
vocabulary has size at most the configured maximum, assigns id 0 to the
padding token and id 1 to the unknown token, and assigns the remaining
ids in order of descending token frequency in the corpus. -/
theorem c3_buildVocab_invariants (docs : List String) (maxSize : Nat)
    (h : 2 ≤ maxSize) :
    ∃ v, buildVocab docs maxSize = .ok v ∧
      v.length ≤ maxSize ∧
      v[0]? = some padToken ∧
      v[1]? = some unkToken ∧
      List.Pairwise
        (fun a b => ((docs.map tokenize).flatten.count b ≤
          (docs.map tokenize).flatten.count a)) (v.drop 2) := by
  refine ⟨padToken :: unkToken ::
    (rankSort (fun t => (docs.map tokenize).flatten.count t)
      (dedupFirst (docs.map tokenize).flatten)).take (maxSize - 2),
    ?_, ?_, ?_, ?_, ?_⟩
  · rw [buildVocab, if_neg (by omega)]
  · simp only [List.length_cons]
    have := List.length_take_le (maxSize - 2)
      (rankSort (fun t => (docs.map tokenize).flatten.count t)
        (dedupFirst (docs.map tokenize).flatten))
    omega
  · rfl
  · simp
  · simp only [List.drop_succ_cons, List.drop_zero]
    exact List.Pairwise.sublist (List.take_sublist _ _) (rankSort_pairwise _ _)

/-- C3 witness: the invariants instantiated on the corpus
`["hot dog", "dog runs", "hot day"]` with maximum size 10. -/
theorem c3_buildVocab_invariants_witness :
    2 ≤ 10 ∧
    ∃ v, buildVocab ["hot dog", "dog runs", "hot day"] 10 = .ok v ∧
      v.length ≤ 10 ∧
      v[0]? = some padToken ∧
      v[1]? = some unkToken ∧
      List.Pairwise
        (fun a b => (((["hot dog", "dog runs", "hot day"] : List String).map
            tokenize).flatten.count b ≤
          ((["hot dog", "dog runs", "hot day"] : List String).map
            tokenize).flatten.count a)) (v.drop 2) :=
  ⟨by decide, c3_buildVocab_invariants ["hot dog", "dog runs", "hot day"] 10
    (by decide)⟩

/-- C4: for every non-empty batch of token sequences, the batch
assembler succeeds and produces an id grid whose width equals the
length of the longest sequence in the batch, in which every row is the
original sequence unchanged followed only by padding ids 0 up to that
width. -/
theorem c4_padBatch_shape (seqs : List (List Nat)) (h : seqs ≠ []) :
    ∃ grid mask, padBatch seqs = .ok (grid, mask) ∧
      (∃ s ∈ seqs, s.length = maxLen seqs) ∧
      (∀ s ∈ seqs, s.length ≤ maxLen seqs) ∧
      grid.length = seqs.length ∧
      (∀ row ∈ grid, row.length = maxLen seqs) ∧
      (∀ i, i < seqs.length →
        grid[i]? = some ((seqs[i]?.getD []) ++
          List.replicate (maxLen seqs - (seqs[i]?.getD []).length) 0)) := by
  match seqs, h with
  | t :: ts, _ =>
  refine ⟨(t :: ts).map (padSeq (maxLen (t :: ts))),
    (t :: ts).map (maskSeq (maxLen (t :: ts))), rfl,
    maxLen_attained _ (by simp), maxLen_ge _, by simp, ?_, ?_⟩
  · intro row hrow
    obtain ⟨s, hs, rfl⟩ := List.mem_map.mp hrow
    have := maxLen_ge (t :: ts) s hs
    simp [padSeq]
    omega
  · intro i hi
    simp only [List.getElem?_map]
    obtain ⟨x, hsome⟩ : ∃ x, (t :: ts)[i]? = some x :=
      ⟨_, List.getElem?_eq_getElem hi⟩
    rw [hsome]
    simp [padSeq]

/-- C4 witness: the batch-assembler shape properties instantiated on
the concrete batch `[[5], [2, 3]]`. -/
theorem c4_padBatch_shape_witness :
    ([[5], [2, 3]] : List (List Nat)) ≠ [] ∧
    ∃ grid mask, padBatch [[5], [2, 3]] = .ok (grid, mask) ∧
      (∃ s ∈ ([[5], [2, 3]] : List (List Nat)),
        s.length = maxLen [[5], [2, 3]]) ∧
      (∀ s ∈ ([[5], [2, 3]] : List (List Nat)),
        s.length ≤ maxLen [[5], [2, 3]]) ∧
      grid.length = ([[5], [2, 3]] : List (List Nat)).length ∧
      (∀ row ∈ grid, row.length = maxLen [[5], [2, 3]]) ∧
      (∀ i, i < ([[5], [2, 3]] : List (List Nat)).length →
        grid[i]? = some ((([[5], [2, 3]] : List (List Nat))[i]?.getD []) ++
          List.replicate (maxLen [[5], [2, 3]] -
            (([[5], [2, 3]] : List (List Nat))[i]?.getD []).length) 0)) :=
  ⟨by decide, c4_padBatch_shape [[5], [2, 3]] (by decide)⟩

/-- C5: building the vocabulary from the corpus
`["hot dog", "dog runs", "hot day"]` with maximum size 10 yields id 0 =
padding, id 1 = unknown, then ids for `hot` and `dog` (frequency 2,
first-seen order) before the frequency-1 tokens `runs` and `day`
(first-seen order). -/
theorem c5_vocab_example :
    buildVocab ["hot dog", "dog runs", "hot day"] 10 =
      .ok ["", "[UNK]", "hot", "dog", "runs", "day"] := by
  rfl

/-- C6: on the empty batch, the batch assembler fails with
`ConfigError` rather than producing a (possibly empty) grid. -/
theorem c6_padBatch_empty_configError :
    padBatch [] = .error .configError := by
  rfl

/-- C7: vectorizing the empty string with any vocabulary returns the
empty id sequence (length zero); `vectorize` is total, so no error is
raised. -/
theorem c7_vectorize_empty_string :
    ∀ vocab : List String, vectorize vocab "" = [] := by
  intro vocab
  have h : tokenize "" = [] := by decide
  simp [vectorize, h]

/-- C8: under the precondition that every input id was produced by the
vectorizer over a vocabulary of at least the two reserved tokens whose
size is at most the embedding-table size, every id is in range, so the
Embed stage's `InternalError` is unreachable: embedding lookup succeeds
on the whole sequence. -/
theorem c8_embed_internalError_unreachable (vocab : List String)
    (table : List (List ℚ)) (text : String)
    (hv : 2 ≤ vocab.length) (hlen : vocab.length ≤ table.length) :
    ∃ vs, embedLookup table (vectorize vocab text) = .ok vs := by
  apply embedLookup_ok
  intro i hi
  exact lt_of_lt_of_le (vectorize_id_lt vocab text hv i hi) hlen

/-- C8 witness: embedding lookup succeeds on the vectorization of
`"hot day"` over the vocabulary `["", "[UNK]", "hot"]` with a 3-row
table. -/
theorem c8_embed_internalError_unreachable_witness :
    (2 ≤ (["", "[UNK]", "hot"] : List String).length ∧
      (["", "[UNK]", "hot"] : List String).length ≤
        ([[(0 : ℚ)], [1], [2]] : List (List ℚ)).length) ∧
    ∃ vs, embedLookup [[(0 : ℚ)], [1], [2]]
      (vectorize ["", "[UNK]", "hot"] "hot day") = .ok vs :=
  ⟨⟨by decide, by decide⟩,
    c8_embed_internalError_unreachable ["", "[UNK]", "hot"]
      [[(0 : ℚ)], [1], [2]] "hot day" (by decide) (by decide)⟩

/-- C9: for every vocabulary token missing from the pre-trained
embedding provider, populating the embedding matrix does not raise an
error: the miss is only counted (`not_found` equals the number of
missing tokens) and the token's row keeps its zero initialization from
`np.zeros` (the random initialization is commented out in the
source). -/
theorem c9_populate_missing_token (w2v : String → Option (List ℚ))
    (vocabSize embedSize : Nat) (vocab : List String) (i : Nat) (w : String)
    (hget : vocab[i]? = some w) (hmiss : w2v w = none) (hi : i < vocabSize) :
    (populateMatrix w2v vocabSize embedSize vocab).W[i]? =
      some (List.replicate embedSize 0) ∧
    (populateMatrix w2v vocabSize embedSize vocab).notFound =
      (vocab.filter (fun u => (w2v u).isNone)).length := by
  constructor
  · rw [populateMatrix, populateGo_W_of_miss]
    · simp [List.getElem?_replicate, hi]
    · intro u hu
      have hu2 : vocab[i]? = some u := List.mem_enum_iff_getElem?.mp hu
      rw [hget] at hu2
      injection hu2 with hu2
      rw [← hu2]
      exact hmiss
  · rw [populateMatrix, populateGo_notFound]
    simp only [List.enum]
    have hlen := length_filter_enumFrom (fun u => (w2v u).isNone) vocab 0
    simpa using hlen

/-- C9 witness: populating over the vocabulary `["day"]` with a
provider that knows no token leaves row 0 all-zero and counts one
miss. -/
theorem c9_populate_missing_token_witness :
    ((["day"] : List String)[0]? = some "day" ∧ (0 : Nat) < 1) ∧
    (populateMatrix (fun _ => none) 1 2 ["day"]).W[0]? =
      some (List.replicate 2 (0 : ℚ)) ∧
    (populateMatrix (fun _ => none) 1 2 ["day"]).notFound =
      ((["day"] : List String).filter
        (fun u => ((fun _ => (none : Option (List ℚ))) u).isNone)).length :=
  ⟨⟨by rfl, by decide⟩,
    c9_populate_missing_token (fun _ => none) 1 2 ["day"] 0 "day"
      (by rfl) (by rfl) (by decide)⟩

/-- C10: for every input text, `to_bow(text)` has length `vocab_size`,
its component at each index `v < vocab_size` equals the number of
positions of `vectorize(text)` whose id equals `v`, and (since all ids
produced by the vectorizer are below `vocab_size`) the sum of all its
components equals the number of tokens in the vectorized text. -/
theorem c10_to_bow_counts (vocab : List String) (vocabSize : Nat) (text : String)
    (h2 : 2 ≤ vocabSize) (hvl : vocab.length ≤ vocabSize) :
    (to_bow vocab vocabSize text).length = vocabSize ∧
    (∀ v, v < vocabSize →
      (to_bow vocab vocabSize text)[v]? =
        some ((vectorize vocab text).count v)) ∧
    (to_bow vocab vocabSize text).sum = (vectorize vocab text).length := by
  have hids : ∀ i ∈ vectorize vocab text, i < vocabSize := by
    intro i hi
    simp only [vectorize, List.mem_map] at hi
    obtain ⟨t, _, rfl⟩ := hi
    unfold tokenToId
    by_cases hm : t ∈ vocab
    · rw [if_pos hm]
      exact lt_of_lt_of_le (List.indexOf_lt_length.mpr hm) hvl
    · rw [if_neg hm]
      omega
  refine ⟨?_, ?_, ?_⟩
  · rw [to_bow_eq_counts]
    simp
  · intro v hv
    rw [to_bow_eq_counts]
    rw [List.getElem?_map, List.getElem?_range hv]
    rfl
  · rw [to_bow_eq_counts]
    exact sum_range_counts vocabSize (vectorize vocab text) hids

/-- C10 witness: the bag-of-words properties instantiated on the text
`"hot day hot"` over the vocabulary `["", "[UNK]", "hot"]` with
`vocab_size` 3. -/
theorem c10_to_bow_counts_witness :
    (2 ≤ 3 ∧ (["", "[UNK]", "hot"] : List String).length ≤ 3) ∧
    ((to_bow ["", "[UNK]", "hot"] 3 "hot day hot").length = 3 ∧
    (∀ v, v < 3 →
      (to_bow ["", "[UNK]", "hot"] 3 "hot day hot")[v]? =
        some ((vectorize ["", "[UNK]", "hot"] "hot day hot").count v)) ∧
    (to_bow ["", "[UNK]", "hot"] 3 "hot day hot").sum =
      (vectorize ["", "[UNK]", "hot"] "hot day hot").length) :=
  ⟨⟨by decide, by decide⟩,
    c10_to_bow_counts ["", "[UNK]", "hot"] 3 "hot day hot"
      (by decide) (by decide)⟩

end NlpPipeline
